import Mathlib

/-!
Verification of the transpose-elimination pass of
`tools/nntool/graph/manipulations/eliminate_transposes/eliminate_transposes.py`.

The development shallowly embeds the data model and the operations of that
file: the transpose algebra, the `VisitedNodes` bookkeeping, `check_continue`,
the one-step behaviour of `search_down` / `search_up` (their recursive calls
are abstracted as oracle parameters), the driver's scoring and commit logic
(`count_eliminated`, `transpose_moved`, the decision of lines 984-1011), the
driver's pass loop, and the `remove_silly_reshapes` cleanup.

Helpers the file imports from modules that are not available
(`transpose_helpers`, `utils.compatible_transposes`, the graph container and
the operator class hierarchy) are modelled from the specification's words and
are marked `Modelled from the spec:` in their doc comments.
-/

/-! ## Transpose algebra -/

/-- Modelled from the spec: `apply(p, shape)` produces a shape of the same
rank whose i-th element is `shape[p[i]]` (the helper `apply_transpose` of
`transpose_helpers` is not in the sources). Out-of-range indices default
to 0, which never happens for genuine permutations. -/
def applyTranspose (shape : List Nat) (transpose : List Nat) : List Nat :=
  transpose.map (fun i => shape.getD i 0)

/-- Modelled from the spec: `reverse(p)` is the inverse permutation, so that
`apply(reverse(p), apply(p, s)) = s` (the helper `reverse_transpose` of
`transpose_helpers` is not in the sources). -/
def reverseTranspose (transpose : List Nat) : List Nat :=
  (List.range transpose.length).map (fun i => transpose.indexOf i)

/-- Modelled from the spec: `is_identity(p)` is true iff `p[i] = i` for all
i (the helper `identity_transpose` is not in the sources); a null transpose
is not the identity. -/
def identityTranspose (transpose : Option (List Nat)) : Bool :=
  match transpose with
  | some p => p = List.range p.length
  | none => false

/-- Modelled from the spec: `does_nothing(p, shape)` is true iff every axis i
with `p[i] ≠ i` has `shape[p[i]] = 1` and `shape[i] = 1` (the helper
`transpose_does_nothing` is not in the sources). -/
def transposeDoesNothing (p : List Nat) (shape : List Nat) : Bool :=
  (List.range p.length).all
    (fun i => p.getD i 0 = i || (shape.getD (p.getD i 0) 0 = 1 && shape.getD i 0 = 1))

/-- Option-lifted `reverse_transpose`; the sources apply it to a possibly
null transpose, a null stays null. -/
def reverseTO (transpose : Option (List Nat)) : Option (List Nat) :=
  transpose.map reverseTranspose

/-- Option-lifted `transpose_does_nothing`; false on a null transpose. -/
def transposeDoesNothingO (p : Option (List Nat)) (shape : List Nat) : Bool :=
  match p with
  | some q => transposeDoesNothing q shape
  | none => false

/-- Embeds `reduce_dimension` (eliminate_transposes.py lines 244-246):
reduces `axis` by the number of stripped axes that are less than it. -/
def reduceDimension (axis : Nat) (strippedAxes : List Nat) : Nat :=
  axis - (strippedAxes.map (fun s => if s < axis then 1 else 0)).sum

/-- Embeds `expand_axes_in_transpose` (lines 249-251): prepends
`range(num_new_axes)` and shifts every axis up by `num_new_axes`. -/
def expandAxesInTranspose (transpose : List Nat) (numNewAxes : Nat) : List Nat :=
  List.range numNewAxes ++ transpose.map (fun axis => axis + numNewAxes)

/-- Embeds `strip_axes_from_transpose` (lines 254-255): drops the stripped
axes and rebases each survivor with `reduce_dimension`. -/
def stripAxesFromTranspose (transpose : List Nat) (strippedAxes : List Nat) : List Nat :=
  (transpose.filter (fun axis => !decide (axis ∈ strippedAxes))).map
    (fun axis => reduceDimension axis strippedAxes)

/-- Embeds `broadcasted_axes` (lines 240-241). -/
def broadcastedAxes (shape : List Nat) (fullShape : List Nat) : List Nat :=
  List.range (fullShape.length - shape.length)

/-- Embeds `strip_leading_dim` (lines 226-230). -/
def stripLeadingDim (shape : List Nat) (dim : Nat) : List Nat :=
  match shape with
  | a :: b :: rest => if a = dim then stripLeadingDim (b :: rest) dim else a :: b :: rest
  | other => other

/-- Embeds `compute_max_shape` (lines 233-237): a single shape is returned
as is, otherwise the element-wise maximum (`zip` truncates to the shortest
shape, as in Python). -/
def computeMaxShape (dims : List (List Nat)) : List Nat :=
  match dims with
  | [] => []
  | [d] => d
  | d :: rest => rest.foldl (fun acc s => List.zipWith max acc s) d

lemma reduceDimension_add_range (a k : Nat) :
    reduceDimension (a + k) (List.range k) = a := by
  unfold reduceDimension
  have hmap : (List.range k).map (fun s => if s < a + k then 1 else 0) =
      List.replicate k 1 := by
    rw [List.eq_replicate_iff]
    constructor
    · simp
    · intro b hb
      rcases List.mem_map.mp hb with ⟨s, hs, hsb⟩
      have : s < a + k := lt_of_lt_of_le (List.mem_range.mp hs) (Nat.le_add_left k a)
      simpa [this] using hsb.symm
  rw [hmap, List.sum_replicate, smul_eq_mul, mul_one, Nat.add_sub_cancel]

/-- C10: for every sequence `p` of (distinct, non-negative) axes and every
`k`, stripping the first `k` axes from the expansion of `p` by `k` recovers
`p`: `strip_axes_from_transpose(expand_axes_in_transpose(p, k), range(k)) = p`.
Axes are modelled as naturals, so non-negativity is structural, and the
result holds for every such `p`, distinct or not. -/
theorem C10_strip_expand_roundtrip (p : List Nat) (k : Nat) :
    stripAxesFromTranspose (expandAxesInTranspose p k) (List.range k) = p := by
  unfold stripAxesFromTranspose expandAxesInTranspose
  rw [List.filter_append]
  have h1 : (List.range k).filter (fun axis => !decide (axis ∈ List.range k)) = [] := by
    apply List.filter_eq_nil_iff.mpr
    intro a ha
    simp [ha]
  have h2 : (p.map (fun axis => axis + k)).filter
      (fun axis => !decide (axis ∈ List.range k)) = p.map (fun axis => axis + k) := by
    apply List.filter_eq_self.mpr
    intro a ha
    rcases List.mem_map.mp ha with ⟨b, _, hb⟩
    have : ¬ a ∈ List.range k := by
      rw [List.mem_range]
      omega
    simp [this]
  rw [h1, h2, List.nil_append, List.map_map]
  have : ((fun axis => reduceDimension axis (List.range k)) ∘ fun axis => axis + k) =
      fun axis => axis := by
    funext a
    simp [Function.comp, reduceDimension_add_range]
  rw [this]
  simp

/-! ## Visit bookkeeping: `VisitedNodes` (lines 97-173)

Nodes are identified by a natural number (the graph container guarantees
distinct node objects). A Python tag string `'down3'` / `'up*'` becomes a
`Tag` whose index is `some 3` / `none`. Python's insertion-ordered `dict`
becomes an association list with unique keys; `set` of tags becomes a
duplicate-free list. -/

inductive Tag where
  | down (idx : Option Nat)
  | up (idx : Option Nat)
deriving DecidableEq, Repr

abbrev TagSet := List Tag

structure VisitedNodes where
  nodes : List (Nat × TagSet)
deriving DecidableEq, Repr

def emptyVisited : VisitedNodes := VisitedNodes.mk []

/-- Association-list lookup of a node's tag set (Python `self._nodes.get`). -/
def lookupTags (v : VisitedNodes) (n : Nat) : Option TagSet :=
  (v.nodes.find? (fun p => p.1 == n)).map (fun p => p.2)

/-- Python `self._nodes.get(node, set())`. -/
def getTags (v : VisitedNodes) (n : Nat) : TagSet :=
  (lookupTags v n).getD []

/-- Python dict assignment `d[n] = ts`: replace the first (and, with unique
keys, only) entry for `n`, or append a fresh one. -/
def setEntry (l : List (Nat × TagSet)) (n : Nat) (ts : TagSet) : List (Nat × TagSet) :=
  match l with
  | [] => [(n, ts)]
  | (m, t0) :: rest => if m = n then (n, ts) :: rest else (m, t0) :: setEntry rest n ts

/-- Python `d.setdefault(n, set())` followed by mutating the set with `f`. -/
def updateTags (l : List (Nat × TagSet)) (n : Nat) (f : TagSet → TagSet) :
    List (Nat × TagSet) :=
  match l with
  | [] => [(n, f [])]
  | (m, t0) :: rest => if m = n then (m, f t0) :: rest else (m, t0) :: updateTags rest n f

/-- Python `set.add`. -/
def tagInsert (ts : TagSet) (t : Tag) : TagSet :=
  if t ∈ ts then ts else ts ++ [t]

/-- Python `set |= set`. -/
def tagUnion (ts us : TagSet) : TagSet :=
  us.foldl tagInsert ts

/-- Embeds `VisitedNodes.__contains__` (lines 109-110): the node must have an
entry and `any` of its tag set must be truthy, i.e. the set is non-empty. -/
def memV (v : VisitedNodes) (n : Nat) : Bool :=
  match lookupTags v n with
  | some ts => !ts.isEmpty
  | none => false

/-- Embeds `VisitedNodes.__iter__` (lines 112-113). -/
def iterV (v : VisitedNodes) : List Nat :=
  (v.nodes.filter (fun p => !p.2.isEmpty)).map (fun p => p.1)

/-- Embeds `VisitedNodes.__len__` (lines 115-116). -/
def lenV (v : VisitedNodes) : Nat :=
  (v.nodes.filter (fun p => !p.2.isEmpty)).length

/-- Embeds `VisitedNodes.add` (lines 118-119): installs an empty tag set. -/
def addV (v : VisitedNodes) (n : Nat) : VisitedNodes :=
  VisitedNodes.mk (setEntry v.nodes n [])

/-- Embeds `VisitedNodes.visit_down` (lines 124-126). -/
def visitDown (v : VisitedNodes) (n : Nat) (idx : Nat) : VisitedNodes :=
  VisitedNodes.mk (updateTags v.nodes n (fun ts => tagInsert ts (Tag.down (some idx))))

/-- Embeds `VisitedNodes.visit_up` (lines 134-136). -/
def visitUp (v : VisitedNodes) (n : Nat) (idx : Nat) : VisitedNodes :=
  VisitedNodes.mk (updateTags v.nodes n (fun ts => tagInsert ts (Tag.up (some idx))))

/-- Embeds `VisitedNodes.visited_down` with `idx=None` (lines 128-131): any
tag starting with `down`, the `down*` wildcard included. -/
def visitedDown (v : VisitedNodes) (n : Nat) : Bool :=
  (getTags v n).any (fun t => match t with | Tag.down _ => true | _ => false)

/-- Embeds `VisitedNodes.visited_up` with `idx=None` (lines 138-141). -/
def visitedUp (v : VisitedNodes) (n : Nat) : Bool :=
  (getTags v n).any (fun t => match t with | Tag.up _ => true | _ => false)

inductive Direction where
  | up
  | down
deriving DecidableEq, Repr

def mkTag (dir : Direction) (idx : Option Nat) : Tag :=
  match dir with
  | Direction.up => Tag.up idx
  | Direction.down => Tag.down idx

/-- Embeds `VisitedNodes.visited_direction` (lines 144-145): an exact
`f'{direction}{idx}'` membership test; the `'down*'` / `'up*'` wildcards do
NOT match it. -/
def visitedDirection (v : VisitedNodes) (dir : Direction) (idx : Nat) (n : Nat) : Bool :=
  decide (mkTag dir (some idx) ∈ getTags v n)

/-- Embeds the `VisitedNodes` branch of `VisitedNodes.__or_nodes`
(lines 151-157): per-node union of tag sets, keys absent from the left side
are appended. -/
def orNodesStep (res : List (Nat × TagSet)) (e : Nat × TagSet) : List (Nat × TagSet) :=
  if (res.find? (fun p => p.1 == e.1)).isSome then
    updateTags res e.1 (fun ts => tagUnion ts e.2)
  else
    res ++ [e]

/-- Embeds `VisitedNodes.__or__` with a `VisitedNodes` argument (lines
150-166). -/
def unionV (a b : VisitedNodes) : VisitedNodes :=
  VisitedNodes.mk (b.nodes.foldl orNodesStep a.nodes)

/-- Embeds the plain-iterable branch of `VisitedNodes.__or_nodes` (lines
158-160): every node of the external set is assigned the opaque tag set
`{'up*', 'down*'}`. -/
def orExternal (a : VisitedNodes) (s : List Nat) : VisitedNodes :=
  VisitedNodes.mk (s.foldl (fun res n => setEntry res n [Tag.up none, Tag.down none]) a.nodes)

/-! ### Association-list lemmas for `VisitedNodes` -/

lemma find?_append_first {α : Type} (p : α → Bool) {l₁ : List α} (l₂ : List α) {x : α}
    (h : l₁.find? p = some x) : (l₁ ++ l₂).find? p = some x := by
  induction l₁ with
  | nil => simp at h
  | cons a rest ih =>
    rw [List.cons_append, List.find?_cons] at *
    rcases hpa : p a with _ | _
    · rw [hpa] at h
      exact ih h
    · rw [hpa] at h
      exact h

lemma find?_setEntry_self (l : List (Nat × TagSet)) (n : Nat) (ts : TagSet) :
    (setEntry l n ts).find? (fun p => p.1 == n) = some (n, ts) := by
  induction l with
  | nil => simp [setEntry]
  | cons a rest ih =>
    rcases a with ⟨a1, a2⟩
    by_cases h : a1 = n
    · simp [setEntry, h]
    · simp [setEntry, h, List.find?_cons, ih]

lemma find?_setEntry_ne (l : List (Nat × TagSet)) (m n : Nat) (h : m ≠ n) (ts : TagSet) :
    (setEntry l m ts).find? (fun p => p.1 == n) = l.find? (fun p => p.1 == n) := by
  induction l with
  | nil => simp [setEntry, h]
  | cons a rest ih =>
    rcases a with ⟨a1, a2⟩
    by_cases ham : a1 = m
    · subst ham
      simp [setEntry, List.find?_cons, h]
    · by_cases han : a1 = n
      · subst han
        simp [setEntry, ham, List.find?_cons]
      · simp [setEntry, ham, han, List.find?_cons, ih]

lemma lookupTags_setEntry_self (l : List (Nat × TagSet)) (n : Nat) (ts : TagSet) :
    lookupTags (VisitedNodes.mk (setEntry l n ts)) n = some ts := by
  simp [lookupTags, find?_setEntry_self]

lemma lookupTags_setEntry_ne (l : List (Nat × TagSet)) (m n : Nat) (h : m ≠ n) (ts : TagSet) :
    lookupTags (VisitedNodes.mk (setEntry l m ts)) n = lookupTags (VisitedNodes.mk l) n := by
  simp [lookupTags, find?_setEntry_ne l m n h]

lemma lookupTags_updateTags_self (l : List (Nat × TagSet)) (n : Nat) (f : TagSet → TagSet) :
    lookupTags (VisitedNodes.mk (updateTags l n f)) n =
      some (f (getTags (VisitedNodes.mk l) n)) := by
  induction l with
  | nil => simp [updateTags, lookupTags, getTags]
  | cons a rest ih =>
    rcases a with ⟨a1, a2⟩
    by_cases h : a1 = n
    · subst h
      simp [updateTags, lookupTags, getTags, List.find?_cons]
    · simpa [updateTags, h, lookupTags, getTags, List.find?_cons] using ih

lemma lookupTags_updateTags_ne (l : List (Nat × TagSet)) (m n : Nat) (h : m ≠ n)
    (f : TagSet → TagSet) :
    lookupTags (VisitedNodes.mk (updateTags l m f)) n = lookupTags (VisitedNodes.mk l) n := by
  induction l with
  | nil => simp [updateTags, lookupTags, h]
  | cons a rest ih =>
    rcases a with ⟨a1, a2⟩
    by_cases ham : a1 = m
    · subst ham
      simp [updateTags, lookupTags, List.find?_cons, h]
    · by_cases han : a1 = n
      · subst han
        simp [updateTags, ham, lookupTags, List.find?_cons]
      · simpa [updateTags, ham, han, lookupTags, List.find?_cons] using ih

lemma mem_tagInsert_left {t : Tag} {ts : TagSet} (u : Tag) (h : t ∈ ts) :
    t ∈ tagInsert ts u := by
  unfold tagInsert
  split
  · exact h
  · exact List.mem_append_left _ h

lemma mem_tagUnion_left {t : Tag} {ts : TagSet} (us : TagSet) (h : t ∈ ts) :
    t ∈ tagUnion ts us := by
  induction us generalizing ts with
  | nil => exact h
  | cons u rest ih => exact ih (mem_tagInsert_left u h)

lemma mem_getTags_orNodesStep {t : Tag} {l : List (Nat × TagSet)} {n : Nat}
    (e : Nat × TagSet) (h : t ∈ getTags (VisitedNodes.mk l) n) :
    t ∈ getTags (VisitedNodes.mk (orNodesStep l e)) n := by
  unfold orNodesStep
  split
  · by_cases hn : e.1 = n
    · subst hn
      simp only [getTags, lookupTags_updateTags_self, Option.getD_some]
      exact mem_tagUnion_left _ h
    · simp only [getTags, lookupTags_updateTags_ne l e.1 n hn]
      exact h
  · rcases hf : l.find? (fun p => p.1 == n) with _ | pr
    · exfalso
      simp [getTags, lookupTags, hf] at h
    · simp only [getTags, lookupTags] at h ⊢
      rw [find?_append_first _ _ hf]
      rw [hf] at h
      simpa using h

lemma mem_getTags_unionV_left {t : Tag} {a : VisitedNodes} {n : Nat}
    (cur : VisitedNodes) (h : t ∈ getTags a n) :
    t ∈ getTags (unionV a cur) n := by
  rcases a with ⟨l⟩
  rcases cur with ⟨cs⟩
  unfold unionV
  simp only
  induction cs generalizing l with
  | nil => exact h
  | cons e rest ih =>
    exact ih (orNodesStep l e) (mem_getTags_orNodesStep e h)

/-! ## Nodes and `check_continue` (lines 192-223)

The operator class hierarchy (`graph.types`) is not in the sources, so the
kinds the pass dispatches on become a closed `NodeKind`, and the capability
markers are modelled from the spec's taxonomy: `SensitiveToOrder` operators
(Conv, pools, Softmax, Split, ...) are collapsed into the `sensitive` kind;
the kinds the pass handles structurally (Transpose, Reshape, Concat, binary
ops, Pow, Pad, Reverse, StridedSlice, FullyConnected, LinearFusion, Input,
Output, Constant, Activation, Copy, UnaryOp) are not SensitiveToOrder; only
binary ops carry the `Broadcastable` marker (`PowOpParameters` is checked
separately by the sources). -/

inductive NodeKind where
  | constant
  | input (fixedOrder : Bool)
  | output (fixedOrder : Bool)
  | fc (batchSize : Nat)
  | linearFusion (batchSize : Nat)
  | transpose (perm : List Nat)
  | reshape (oldShape shape : List Nat)
  | pad
  | reverse
  | stridedSlice (sliceShape outShape : List Nat)
  | concat
  | binop
  | pow
  | activation
  | copy
  | unaryOp
  | sensitive
deriving DecidableEq, Repr

structure Node where
  id : Nat
  kind : NodeKind
  inDims : List (List Nat)
  outDims : List (List Nat)
deriving DecidableEq, Repr

/-- Modelled from the spec: `isinstance(node, SensitiveToOrder)`. -/
def sensitiveToOrder (n : Node) : Bool :=
  match n.kind with
  | NodeKind.sensitive => true
  | _ => false

/-- Modelled from the spec: `isinstance(node, Broadcastable)`. -/
def isBroadcastableK (k : NodeKind) : Bool :=
  match k with
  | NodeKind.binop => true
  | _ => false

def kindIsPow (k : NodeKind) : Bool :=
  match k with
  | NodeKind.pow => true
  | _ => false

/-- Embeds membership of `NODES_TO_EXPLORE_UP` (lines 70-74): Concat, binary
ops, and anything Broadcastable. -/
def isExploreUpK (k : NodeKind) : Bool :=
  match k with
  | NodeKind.concat => true
  | NodeKind.binop => true
  | _ => isBroadcastableK k

/-- Modelled from the spec: the LayoutFlexible terminals are Constant, Input
and Output without `fixed_order`, and single-batch FullyConnected. -/
def layoutFlexTerminal (n : Node) : Bool :=
  match n.kind with
  | NodeKind.constant => true
  | NodeKind.input fo => !fo
  | NodeKind.output fo => !fo
  | NodeKind.fc b => decide (b ≤ 1)
  | _ => false

inductive CheckResult where
  | visit
  | skip
  | cantContinue
deriving DecidableEq, Repr

/-- Embeds `check_continue` (lines 192-223). `visit` is Python `False`,
`skip` is Python `True`, `cantContinue` is a raised `CantContinueError`.
The exclude set holds the node ids of previous eliminations. -/
def checkContinue (visited cur : VisitedNodes) (exclude : List Nat)
    (node : Node) (dir : Direction) (idx : Nat) : CheckResult :=
  let allVisited := unionV visited cur
  if sensitiveToOrder node = false ∧ dir = Direction.up ∧
      visitedDown allVisited node.id = true then CheckResult.skip
  else if sensitiveToOrder node = false ∧ dir = Direction.down ∧
      visitedUp allVisited node.id = true then CheckResult.skip
  else if visitedDirection allVisited dir idx node.id then CheckResult.cantContinue
  else if node.id ∈ exclude then CheckResult.cantContinue
  else CheckResult.visit

/-- The "already visited in the opposite direction" test of `check_continue`. -/
def oppositeVisited (v : VisitedNodes) (n : Nat) (dir : Direction) : Bool :=
  match dir with
  | Direction.up => visitedDown v n
  | Direction.down => visitedUp v n

/-! ### Lemmas for `orExternal` and `addV` -/

lemma lookupTags_foldl_setEntry_notmem (ts : TagSet) (s : List Nat)
    (l : List (Nat × TagSet)) (n : Nat) (h : ¬ n ∈ s) :
    lookupTags (VisitedNodes.mk (s.foldl (fun res m => setEntry res m ts) l)) n =
      lookupTags (VisitedNodes.mk l) n := by
  induction s generalizing l with
  | nil => rfl
  | cons m rest ih =>
    have hm : m ≠ n := fun hc => h (hc ▸ List.mem_cons_self m rest)
    have hr : ¬ n ∈ rest := fun hc => h (List.mem_cons_of_mem m hc)
    rw [List.foldl_cons, ih _ hr, lookupTags_setEntry_ne l m n hm]

lemma lookupTags_orExternal_mem (v : VisitedNodes) (s : List Nat) (n : Nat) (h : n ∈ s) :
    lookupTags (orExternal v s) n = some [Tag.up none, Tag.down none] := by
  rcases v with ⟨l⟩
  unfold orExternal
  simp only
  revert h
  induction s generalizing l with
  | nil =>
    intro h
    simp at h
  | cons m rest ih =>
    intro h
    rw [List.foldl_cons]
    by_cases hr : n ∈ rest
    · exact ih _ hr
    · have hnm : n = m := by
        rcases List.mem_cons.mp h with h1 | h2
        · exact h1
        · exact absurd h2 hr
      subst hnm
      rw [lookupTags_foldl_setEntry_notmem _ rest _ n hr, lookupTags_setEntry_self]

lemma setEntry_key_eq_empty (l : List (Nat × TagSet)) (n : Nat)
    (h : (l.map Prod.fst).Nodup) :
    ∀ p ∈ setEntry l n ([] : TagSet), p.1 = n → p.2 = [] := by
  induction l with
  | nil =>
    intro p hp _
    simp [setEntry] at hp
    rw [hp]
  | cons a rest ih =>
    rcases a with ⟨a1, a2⟩
    intro p hp hpn
    rw [List.map_cons, List.nodup_cons] at h
    by_cases ha : a1 = n
    · subst ha
      rw [setEntry, if_pos rfl] at hp
      rcases List.mem_cons.mp hp with h1 | h2
      · rw [h1]
      · exfalso
        have hmem : p.1 ∈ rest.map Prod.fst := List.mem_map_of_mem Prod.fst h2
        rw [hpn] at hmem
        exact h.1 hmem
    · rw [setEntry, if_neg ha] at hp
      rcases List.mem_cons.mp hp with h1 | h2
      · exfalso
        apply ha
        rw [h1] at hpn
        exact hpn
      · exact ih h.2 p h2 hpn

lemma filter_key_ne_eq_self (l : List (Nat × TagSet)) (n : Nat)
    (h : ¬ n ∈ l.map Prod.fst) :
    l.filter (fun p => !(p.1 == n)) = l := by
  apply List.filter_eq_self.mpr
  intro p hp
  have : p.1 ≠ n := fun hc => h (hc ▸ List.mem_map_of_mem Prod.fst hp)
  simp [this]

lemma filter_setEntry_empty (l : List (Nat × TagSet)) (n : Nat)
    (h : (l.map Prod.fst).Nodup) :
    (setEntry l n ([] : TagSet)).filter (fun p => !p.2.isEmpty) =
      (l.filter (fun p => !(p.1 == n))).filter (fun p => !p.2.isEmpty) := by
  induction l with
  | nil => simp [setEntry]
  | cons a rest ih =>
    rcases a with ⟨a1, a2⟩
    rw [List.map_cons, List.nodup_cons] at h
    by_cases ha : a1 = n
    · subst ha
      rw [setEntry, if_pos rfl]
      simp [List.filter_cons, filter_key_ne_eq_self rest a1 h.1]
    · rw [setEntry, if_neg ha]
      have hbeq : (a1 == n) = false := by simp [ha]
      simp only [List.filter_cons, hbeq, Bool.not_false, if_true]
      rw [ih h.2]

/-! ## Claims C3, C5, C9 -/

/-- C3, counterexample: the claim says every call of `check_continue` on a
LayoutFlexible terminal returns "visit"; but a Constant node that is in the
exclude set makes `check_continue` raise `CantContinueError` (line 221-222
fires for every node kind). -/
theorem C3_counterexample :
    layoutFlexTerminal (Node.mk 0 NodeKind.constant [] []) = true ∧
    checkContinue emptyVisited emptyVisited [0] (Node.mk 0 NodeKind.constant [] [])
      Direction.up 0 = CheckResult.cantContinue := by
  decide

/-- C3, amended: `check_continue` gives no special treatment to
LayoutFlexible terminals; on such a node (never SensitiveToOrder) it returns
"visit" iff the node has not been visited in the opposite direction in the
union of the two visited sets, has not been visited with the same direction
and edge index, and is not in the exclude set. -/
theorem C3_amended (visited cur : VisitedNodes) (exclude : List Nat) (node : Node)
    (dir : Direction) (idx : Nat) (hterm : layoutFlexTerminal node = true) :
    checkContinue visited cur exclude node dir idx = CheckResult.visit ↔
      (oppositeVisited (unionV visited cur) node.id dir = false ∧
       visitedDirection (unionV visited cur) dir idx node.id = false ∧
       node.id ∉ exclude) := by
  rcases node with ⟨nid, kind, ind, outd⟩
  have hsens : sensitiveToOrder (Node.mk nid kind ind outd) = false := by
    cases kind <;> simp_all [layoutFlexTerminal, sensitiveToOrder]
  unfold checkContinue
  cases dir <;>
    simp only [hsens, oppositeVisited] <;>
    split_ifs <;>
    simp_all

/-- C3, witness for the amended theorem at a concrete Constant node with
empty visited and exclude sets. -/
theorem C3_amended_witness :
    layoutFlexTerminal (Node.mk 1 NodeKind.constant [] []) = true ∧
    (checkContinue emptyVisited emptyVisited [] (Node.mk 1 NodeKind.constant [] [])
        Direction.down 0 = CheckResult.visit ↔
      (oppositeVisited (unionV emptyVisited emptyVisited) 1 Direction.down = false ∧
       visitedDirection (unionV emptyVisited emptyVisited) Direction.down 0 1 = false ∧
       (1 : Nat) ∉ ([] : List Nat))) :=
  ⟨by decide, C3_amended emptyVisited emptyVisited [] (Node.mk 1 NodeKind.constant [] [])
    Direction.down 0 (by decide)⟩

/-- C5, counterexample: union with an external plain set does tag the node
`{up*, down*}`, but a SensitiveToOrder node so tagged is NOT blocked:
`check_continue` still returns "visit" for it, because the same-direction
test `visited_direction` (line 144-145) matches exact `direction+idx` tags
only and never the `*` wildcard, while the opposite-direction skip (lines
212-218) applies only to nodes that are not SensitiveToOrder. -/
theorem C5_counterexample :
    lookupTags (orExternal emptyVisited [7]) 7 = some [Tag.up none, Tag.down none] ∧
    checkContinue (orExternal emptyVisited [7]) emptyVisited []
      (Node.mk 7 NodeKind.sensitive [] []) Direction.down 0 = CheckResult.visit := by
  decide

/-- C5, amended: a node contributed through union with an external plain set
is tagged `{up*, down*}`; a node that is NOT SensitiveToOrder is thereby
blocked in both directions (every `check_continue` call on it skips), but a
SensitiveToOrder node so tagged is still visited when not excluded. -/
theorem C5_amended (v : VisitedNodes) (s : List Nat) (cur : VisitedNodes)
    (exclude : List Nat) (node : Node) (dir : Direction) (idx : Nat)
    (hmem : node.id ∈ s) (hsens : sensitiveToOrder node = false) :
    lookupTags (orExternal v s) node.id = some [Tag.up none, Tag.down none] ∧
    checkContinue (orExternal v s) cur exclude node dir idx = CheckResult.skip := by
  refine ⟨lookupTags_orExternal_mem v s node.id hmem, ?_⟩
  have hstar : getTags (orExternal v s) node.id = [Tag.up none, Tag.down none] := by
    rw [getTags, lookupTags_orExternal_mem v s node.id hmem]
    rfl
  have hdownmem : Tag.down none ∈ getTags (unionV (orExternal v s) cur) node.id :=
    mem_getTags_unionV_left cur (by rw [hstar]; simp)
  have hupmem : Tag.up none ∈ getTags (unionV (orExternal v s) cur) node.id :=
    mem_getTags_unionV_left cur (by rw [hstar]; simp)
  have hdown : visitedDown (unionV (orExternal v s) cur) node.id = true := by
    unfold visitedDown
    rw [List.any_eq_true]
    exact ⟨Tag.down none, hdownmem, rfl⟩
  have hup : visitedUp (unionV (orExternal v s) cur) node.id = true := by
    unfold visitedUp
    rw [List.any_eq_true]
    exact ⟨Tag.up none, hupmem, rfl⟩
  cases dir <;> simp [checkContinue, hsens, hdown, hup]

/-- C5, witness for the amended theorem: a binary-op node (not
SensitiveToOrder) in the external committed set is tagged `{up*, down*}` and
skipped. -/
theorem C5_amended_witness :
    (Node.mk 3 NodeKind.binop [] []).id ∈ [3] ∧
    sensitiveToOrder (Node.mk 3 NodeKind.binop [] []) = false ∧
    (lookupTags (orExternal emptyVisited [3]) (Node.mk 3 NodeKind.binop [] []).id =
        some [Tag.up none, Tag.down none] ∧
      checkContinue (orExternal emptyVisited [3]) emptyVisited []
        (Node.mk 3 NodeKind.binop [] []) Direction.down 0 = CheckResult.skip) :=
  ⟨by decide, by decide,
    C5_amended emptyVisited [3] emptyVisited [] (Node.mk 3 NodeKind.binop [] [])
      Direction.down 0 (by decide) (by decide)⟩

/-- C9: immediately after `VisitedNodes.add` installs an empty tag set for
`n`, membership is False, iteration does not produce `n`, and the length
counts exactly the other nodes that carry a non-empty tag set; membership
becomes True once a direction tag is added via `visit_down` or `visit_up`. -/
theorem C9_add_semantics (v : VisitedNodes) (n i : Nat)
    (h : (v.nodes.map Prod.fst).Nodup) :
    memV (addV v n) n = false ∧
    n ∉ iterV (addV v n) ∧
    lenV (addV v n) =
      ((v.nodes.filter (fun p => !(p.1 == n))).filter (fun p => !p.2.isEmpty)).length ∧
    memV (visitDown (addV v n) n i) n = true ∧
    memV (visitUp (addV v n) n i) n = true := by
  have hlook : lookupTags (addV v n) n = some [] := lookupTags_setEntry_self v.nodes n []
  refine ⟨?_, ?_, ?_, ?_, ?_⟩
  · rw [memV, hlook]
    rfl
  · intro hmem
    rcases List.mem_map.mp hmem with ⟨p, hp, hpn⟩
    have hfil := List.mem_filter.mp hp
    have hempty := setEntry_key_eq_empty v.nodes n h p hfil.1 hpn
    rw [hempty] at hfil
    simp at hfil
  · unfold lenV addV
    simp only
    rw [filter_setEntry_empty v.nodes n h]
  · rw [memV]
    have := lookupTags_updateTags_self (addV v n).nodes n
      (fun ts => tagInsert ts (Tag.down (some i)))
    rw [visitDown, this]
    have hget : getTags (VisitedNodes.mk (addV v n).nodes) n = [] := by
      rw [getTags]
      have : lookupTags (VisitedNodes.mk (addV v n).nodes) n = some [] := hlook
      rw [this]
      rfl
    rw [hget]
    rfl
  · rw [memV]
    have := lookupTags_updateTags_self (addV v n).nodes n
      (fun ts => tagInsert ts (Tag.up (some i)))
    rw [visitUp, this]
    have hget : getTags (VisitedNodes.mk (addV v n).nodes) n = [] := by
      rw [getTags]
      have : lookupTags (VisitedNodes.mk (addV v n).nodes) n = some [] := hlook
      rw [this]
      rfl
    rw [hget]
    rfl

/-- C9, witness at a concrete `VisitedNodes` with one visited node. -/
theorem C9_add_semantics_witness :
    ((VisitedNodes.mk [(1, [Tag.down (some 0)])]).nodes.map Prod.fst).Nodup ∧
    (memV (addV (VisitedNodes.mk [(1, [Tag.down (some 0)])]) 2) 2 = false ∧
     2 ∉ iterV (addV (VisitedNodes.mk [(1, [Tag.down (some 0)])]) 2) ∧
     lenV (addV (VisitedNodes.mk [(1, [Tag.down (some 0)])]) 2) =
       (((VisitedNodes.mk [(1, [Tag.down (some 0)])]).nodes.filter
           (fun p => !(p.1 == 2))).filter (fun p => !p.2.isEmpty)).length ∧
     memV (visitDown (addV (VisitedNodes.mk [(1, [Tag.down (some 0)])]) 2) 2 0) 2 = true ∧
     memV (visitUp (addV (VisitedNodes.mk [(1, [Tag.down (some 0)])]) 2) 2 0) 2 = true) :=
  ⟨by decide, C9_add_semantics (VisitedNodes.mk [(1, [Tag.down (some 0)])]) 2 0 (by decide)⟩

/-! ## Actions (eliminate_transposes_actions, consumed by this file)

Only the constructors and payloads the pass manipulates are modelled;
`execute` is out of scope (the Action module is not in the sources). A
direction payload is `in` or `out`; transpose payloads are optional because
the sources occasionally pass a null transpose through. -/

inductive ActDir where
  | inD
  | outD
deriving DecidableEq, Repr

inductive ElimAction where
  | deleteTranspose (node : Nat) (reshape : Option (List Nat × List Nat))
  | insertTranspose (node : Nat) (dir : ActDir) (idx : Nat) (transpose : Option (List Nat))
  | setTranspose (node : Nat) (transpose : List Nat)
  | insertReshape (node : Nat) (dir : ActDir) (idx : Nat) (inShape outShape : List Nat)
  | setReshape (node : Nat) (inShape outShape : Option (List Nat))
  | deleteReshape (node : Nat)
  | reorderLinearIn (node : Nat)
  | reorderLinearOut (node : Nat)
  | switchBatchLinear (node : Nat)
  | reorderConstantInput (node : Nat) (transpose : Option (List Nat))
  | reorderInputDims (node : Nat) (transpose : Option (List Nat))
  | transposePad (node : Nat) (transpose : Option (List Nat)) (dir : ActDir)
  | transposeReverse (node : Nat) (transpose : Option (List Nat)) (dir : ActDir)
  | transposeSlidedSlice (node : Nat) (transpose : Option (List Nat))
      (outShape : List Nat) (dir : ActDir)
  | endActionUp (node : Nat)
  | endActionDown (node : Nat)
deriving DecidableEq, Repr

def ElimAction.targetNode : ElimAction → Nat
  | ElimAction.deleteTranspose n _ => n
  | ElimAction.insertTranspose n _ _ _ => n
  | ElimAction.setTranspose n _ => n
  | ElimAction.insertReshape n _ _ _ _ => n
  | ElimAction.setReshape n _ _ => n
  | ElimAction.deleteReshape n => n
  | ElimAction.reorderLinearIn n => n
  | ElimAction.reorderLinearOut n => n
  | ElimAction.switchBatchLinear n => n
  | ElimAction.reorderConstantInput n _ => n
  | ElimAction.reorderInputDims n _ => n
  | ElimAction.transposePad n _ _ => n
  | ElimAction.transposeReverse n _ _ => n
  | ElimAction.transposeSlidedSlice n _ _ _ => n
  | ElimAction.endActionUp n => n
  | ElimAction.endActionDown n => n

def isDeleteTransposeA : ElimAction → Bool
  | ElimAction.deleteTranspose _ _ => true
  | _ => false

def isInsertTransposeA : ElimAction → Bool
  | ElimAction.insertTranspose _ _ _ _ => true
  | _ => false

/-! ## Driver scoring and commit decision (lines 793-800, 874-898, 984-1011) -/

/-- Embeds `count_eliminated` (lines 793-800): `None` (a failed direction)
scores -1, otherwise the number of `DeleteTransposeAction`s minus the number
of `InsertTransposeAction`s. -/
def countEliminated (actions : Option (List ElimAction)) : Int :=
  match actions with
  | none => -1
  | some acts =>
    ((acts.filter isDeleteTransposeA).length : Int) -
      ((acts.filter isInsertTransposeA).length : Int)

/-- Embeds `transpose_moved` (lines 874-883) with the graph-dependent
step-index computations `insert_step_idx` / `delete_step_idx` (lines
886-898) abstracted as the functions `insStep` / `delStep`: the sum of the
step indices of ALL inserted transposes must exceed the sum of the step
indices of the producers of ALL deleted transposes; `None` gives False. -/
def transposeMoved (insStep delStep : ElimAction → Int) (actions : Option (List ElimAction)) : Bool :=
  match actions with
  | none => false
  | some acts =>
    decide (((acts.filter isInsertTransposeA).map insStep).sum >
      ((acts.filter isDeleteTransposeA).map delStep).sum)

inductive DriverChoice where
  | commitUp
  | commitDown
  | noCommit
deriving DecidableEq, Repr

/-- Embeds the driver's commit decision (lines 986-1011): commit the upward
result when its score is positive and at least the downward score; otherwise
commit the downward result when its score is positive, or when its score is
zero and `transpose_moved` holds; otherwise commit nothing. -/
def driverDecide (insStep delStep : ElimAction → Int) (up down : Option (List ElimAction)) :
    DriverChoice :=
  let upCount := countEliminated up
  let downCount := countEliminated down
  if 0 < upCount ∧ downCount ≤ upCount then DriverChoice.commitUp
  else if 0 < downCount ∨ (downCount = 0 ∧ transposeMoved insStep delStep down) then
    DriverChoice.commitDown
  else DriverChoice.noCommit

/-- The score of C1's words: number of `DeleteTranspose` actions minus the
number of `InsertTranspose` actions, a failed direction scoring -1. -/
def claimScore (actions : Option (List ElimAction)) : Int :=
  match actions with
  | none => -1
  | some acts => (acts.countP isDeleteTransposeA : Int) - (acts.countP isInsertTransposeA : Int)

/-- The movement test exactly as C1 words it: the sum of step-indices of the
inserted transposes exceeds the step-index of THE deleted transpose's
producer (the single `DeleteTranspose` the claim speaks of is the first one,
the one the driver prepends for the transpose under examination). -/
def claimMovedSingle (insStep delStep : ElimAction → Int) (actions : Option (List ElimAction)) : Bool :=
  match actions with
  | none => false
  | some acts =>
    match acts.find? isDeleteTransposeA with
    | some d => decide (((acts.filter isInsertTransposeA).map insStep).sum > delStep d)
    | none => false

/-- The commit decision exactly as C1 states it. -/
def claimDecideOriginal (insStep delStep : ElimAction → Int) (up down : Option (List ElimAction)) :
    DriverChoice :=
  if 0 < claimScore up ∧ claimScore down ≤ claimScore up then DriverChoice.commitUp
  else if 0 < claimScore down ∨
      (claimScore down = 0 ∧ claimMovedSingle insStep delStep down) then
    DriverChoice.commitDown
  else DriverChoice.noCommit

/-- The movement test of the amended claim: sum of inserted step-indices
against the SUM of the step-indices of the producers of all deleted
transposes. -/
def claimMovedSum (insStep delStep : ElimAction → Int) (actions : Option (List ElimAction)) : Bool :=
  match actions with
  | none => false
  | some acts =>
    decide (((acts.filter isInsertTransposeA).map insStep).sum >
      ((acts.filter isDeleteTransposeA).map delStep).sum)

/-- The commit decision of the amended claim C1. -/
def claimDecideAmended (insStep delStep : ElimAction → Int) (up down : Option (List ElimAction)) :
    DriverChoice :=
  if 0 < claimScore up ∧ claimScore down ≤ claimScore up then DriverChoice.commitUp
  else if 0 < claimScore down ∨
      (claimScore down = 0 ∧ claimMovedSum insStep delStep down) then
    DriverChoice.commitDown
  else DriverChoice.noCommit

lemma countEliminated_eq_claimScore (o : Option (List ElimAction)) :
    countEliminated o = claimScore o := by
  cases o with
  | none => rfl
  | some acts => simp [countEliminated, claimScore, List.countP_eq_length_filter]

/-- C1, counterexample: the claim's tie-break compares the inserted
step-index sum with the step-index of THE deleted transpose's producer, but
`transpose_moved` (lines 874-883) sums over ALL `DeleteTransposeAction`s.
With a downward list of two deletes (producer steps 5 and 6) and two inserts
(steps 3 and 4) at score 0, the claim commits downward (7 > 5) while the
driver commits nothing (7 ≤ 11). Step indices are read off the target node
ids here. -/
theorem C1_counterexample :
    claimDecideOriginal (fun a => (a.targetNode : Int)) (fun a => (a.targetNode : Int))
      none (some [ElimAction.deleteTranspose 5 none, ElimAction.deleteTranspose 6 none,
        ElimAction.insertTranspose 3 ActDir.inD 0 none,
        ElimAction.insertTranspose 4 ActDir.inD 0 none]) = DriverChoice.commitDown ∧
    driverDecide (fun a => (a.targetNode : Int)) (fun a => (a.targetNode : Int))
      none (some [ElimAction.deleteTranspose 5 none, ElimAction.deleteTranspose 6 none,
        ElimAction.insertTranspose 3 ActDir.inD 0 none,
        ElimAction.insertTranspose 4 ActDir.inD 0 none]) = DriverChoice.noCommit := by
  decide

/-- C1, amended: each direction is scored as the number of `DeleteTranspose`
actions minus the number of `InsertTranspose` actions (a failed direction
scoring -1); the driver commits the upward result when its score is positive
and at least the downward score, otherwise the downward result when its
score is positive, or when its score is zero and the sum of the step-indices
of the inserted transposes exceeds the SUM of the step-indices of the
producers of the deleted transposes; otherwise nothing. -/
theorem C1_amended (insStep delStep : ElimAction → Int) (up down : Option (List ElimAction)) :
    driverDecide insStep delStep up down = claimDecideAmended insStep delStep up down := by
  unfold driverDecide claimDecideAmended
  have h1 : countEliminated up = claimScore up := countEliminated_eq_claimScore up
  have h2 : countEliminated down = claimScore down := countEliminated_eq_claimScore down
  have h3 : transposeMoved insStep delStep down = claimMovedSum insStep delStep down := rfl
  simp only [h1, h2, h3]

/-! ## The driver loop (`eliminate_transposes`, lines 901-1026)

The two explorations launched for a transpose are abstracted per pass and
per transpose as a `TransEntry`: the results `search_up` / `search_down`
would return (`none` models a raised `CantContinueError`) together with the
node ids each exploration claims, the id of the transpose's producer (the
`in_edge.from_node` pre-check of line 931) and the ids of the out-edge
consumers (the pre-check of line 961). Graph mutation between passes is
folded into the pass index of `DriverEnv.entries`; the step-index functions
of `transpose_moved` are supplied per pass as well. The skeleton of the
loop, the visited-set pre-checks, the prepended `DeleteTransposeAction`
(lines 950-951 and 980-982), the commit decision, the `single_step or steps`
break (lines 998 and 1008) and the pass cap are embedded exactly. -/

structure TransEntry where
  tid : Nat
  inNode : Nat
  outNodes : List Nat
  upResult : Option (List ElimAction × List Nat)
  downResult : Option (List ElimAction × List Nat)
deriving DecidableEq, Repr

structure DriverEnv where
  entries : Nat → List TransEntry
  insStep : Nat → ElimAction → Int
  delStep : Nat → ElimAction → Int

/-- One driver pass (the inner `while transposes:` loop, lines 922-1011).
State: committed node ids (`visited_nodes`), collected actions, the
`found_results` flag and the running count of commits this call executed. -/
def runPassInner (stopOnCommit onlyUp : Bool) (insStep delStep : ElimAction → Int) :
    List TransEntry → List Nat → List ElimAction → Bool → Nat →
    List Nat × List ElimAction × Bool × Nat
  | [], visited, actions, found, commits => (visited, actions, found, commits)
  | e :: rest, visited, actions, found, commits =>
    if e.tid ∈ visited then
      runPassInner stopOnCommit onlyUp insStep delStep rest visited actions found commits
    else
      let up0 : Option (List ElimAction × List Nat) :=
        if e.inNode ∈ visited then none else e.upResult
      let up := up0.map (fun r => (ElimAction.deleteTranspose e.tid none :: r.1, r.2))
      let down0 : Option (List ElimAction × List Nat) :=
        if onlyUp then none
        else if e.outNodes.any (fun m => decide (m ∈ visited)) then none
        else e.downResult
      let down := down0.map (fun r => (ElimAction.deleteTranspose e.tid none :: r.1, r.2))
      match driverDecide insStep delStep (up.map Prod.fst) (down.map Prod.fst) with
      | DriverChoice.commitUp =>
        if stopOnCommit then
          (visited ++ (up.map Prod.snd).getD [] ++ [e.tid],
            actions ++ (up.map Prod.fst).getD [], true, commits + 1)
        else
          runPassInner stopOnCommit onlyUp insStep delStep rest
            (visited ++ (up.map Prod.snd).getD [] ++ [e.tid])
            (actions ++ (up.map Prod.fst).getD []) true (commits + 1)
      | DriverChoice.commitDown =>
        if stopOnCommit then
          (visited ++ (down.map Prod.snd).getD [] ++ [e.tid],
            actions ++ (down.map Prod.fst).getD [], true, commits + 1)
        else
          runPassInner stopOnCommit onlyUp insStep delStep rest
            (visited ++ (down.map Prod.snd).getD [] ++ [e.tid])
            (actions ++ (down.map Prod.fst).getD []) true (commits + 1)
      | DriverChoice.noCommit =>
        runPassInner stopOnCommit onlyUp insStep delStep rest visited actions found commits

inductive DriverResult where
  | ok (passes commits : Nat)
  | stuckInLoop (msg : String)
deriving DecidableEq, Repr

def stuckMessage : String :=
  "Sorry, eliminate transposes seems to be stuck in a loop. Please report to GreenWaves."

/-- The outer `while found_results:` loop (lines 907-1024). The Python cap
test `pass_count >= steps` (resp. `>= 50`) is carried as the remaining
budget `remaining = cap - pass_count`, which is zero exactly when the cap
test fires; with `steps` given the loop breaks, with `steps = None` it
raises the stuck-in-a-loop `ValueError`. -/
def driverGo (env : DriverEnv) (steps : Option Nat) (singleStep onlyUp : Bool) :
    Nat → Nat → Bool → Nat → DriverResult
  | remaining, passCount, found, commits =>
    if found then
      match remaining with
      | 0 =>
        match steps with
        | some _ => DriverResult.ok passCount commits
        | none => DriverResult.stuckInLoop stuckMessage
      | r + 1 =>
        driverGo env steps singleStep onlyUp r (passCount + 1)
          (runPassInner (singleStep || steps.isSome) onlyUp (env.insStep (passCount + 1))
            (env.delStep (passCount + 1)) (env.entries (passCount + 1)) [] [] false
            commits).2.2.1
          (runPassInner (singleStep || steps.isSome) onlyUp (env.insStep (passCount + 1))
            (env.delStep (passCount + 1)) (env.entries (passCount + 1)) [] [] false
            commits).2.2.2
    else DriverResult.ok passCount commits

/-- Embeds the call `eliminate_transposes(G, steps=steps,
single_step=single_step, only_up=only_up)`: `found_results` starts True,
`pass_count` at 0, the budget is `steps` or the hard cap 50. -/
def driverRun (env : DriverEnv) (steps : Option Nat) (singleStep onlyUp : Bool) :
    DriverResult :=
  driverGo env steps singleStep onlyUp
    (match steps with | some n => n | none => 50) 0 true 0

lemma driverGo_some_ok (env : DriverEnv) (n : Nat) (ss ou : Bool) :
    ∀ rem pc f cm, ∃ p c, p ≤ rem + pc ∧
      driverGo env (some n) ss ou rem pc f cm = DriverResult.ok p c := by
  intro rem
  induction rem with
  | zero =>
    intro pc f cm
    refine ⟨pc, ?_⟩
    cases f
    · exact ⟨cm, by omega, rfl⟩
    · exact ⟨cm, by omega, rfl⟩
  | succ r ih =>
    intro pc f cm
    cases f
    · exact ⟨pc, cm, by omega, rfl⟩
    · have hstep : driverGo env (some n) ss ou (r + 1) pc true cm =
          driverGo env (some n) ss ou r (pc + 1)
            (runPassInner (ss || (some n).isSome) ou (env.insStep (pc + 1))
              (env.delStep (pc + 1)) (env.entries (pc + 1)) [] [] false cm).2.2.1
            (runPassInner (ss || (some n).isSome) ou (env.insStep (pc + 1))
              (env.delStep (pc + 1)) (env.entries (pc + 1)) [] [] false cm).2.2.2 := rfl
      obtain ⟨p, c, hp, heq⟩ := ih (pc + 1) _ _
      exact ⟨p, c, by omega, hstep.trans heq⟩

lemma driverGo_none_cases (env : DriverEnv) (ss ou : Bool) :
    ∀ rem pc f cm,
      (∃ p c, p ≤ rem + pc ∧
        driverGo env none ss ou rem pc f cm = DriverResult.ok p c) ∨
      driverGo env none ss ou rem pc f cm = DriverResult.stuckInLoop stuckMessage := by
  intro rem
  induction rem with
  | zero =>
    intro pc f cm
    cases f
    · exact Or.inl ⟨pc, cm, by omega, rfl⟩
    · exact Or.inr rfl
  | succ r ih =>
    intro pc f cm
    cases f
    · exact Or.inl ⟨pc, cm, by omega, rfl⟩
    · have hstep : driverGo env none ss ou (r + 1) pc true cm =
          driverGo env none ss ou r (pc + 1)
            (runPassInner (ss || (none : Option Nat).isSome) ou (env.insStep (pc + 1))
              (env.delStep (pc + 1)) (env.entries (pc + 1)) [] [] false cm).2.2.1
            (runPassInner (ss || (none : Option Nat).isSome) ou (env.insStep (pc + 1))
              (env.delStep (pc + 1)) (env.entries (pc + 1)) [] [] false cm).2.2.2 := rfl
      rcases ih (pc + 1) _ _ with ⟨p, c, hp, heq⟩ | heq
      · exact Or.inl ⟨p, c, by omega, hstep.trans heq⟩
      · exact Or.inr (hstep.trans heq)

/-- C2: with `steps = None` the driver performs at most 50 passes and, when
the loop would still continue, raises the `ValueError` whose message
contains "stuck in a loop" (lines 908-914); with an integer `steps` it stops
after at most `steps` passes and never raises that error. -/
theorem C2_pass_cap (env : DriverEnv) (ss ou : Bool) (n : Nat) :
    ((∃ p c, p ≤ 50 ∧ driverRun env none ss ou = DriverResult.ok p c) ∨
      driverRun env none ss ou = DriverResult.stuckInLoop stuckMessage) ∧
    (∃ pre post, stuckMessage = pre ++ "stuck in a loop" ++ post) ∧
    (∃ p c, p ≤ n ∧ driverRun env (some n) ss ou = DriverResult.ok p c) := by
  refine ⟨?_, ⟨"Sorry, eliminate transposes seems to be ",
    ". Please report to GreenWaves.", by decide⟩, ?_⟩
  · rcases driverGo_none_cases env ss ou 50 0 true 0 with ⟨p, c, hp, heq⟩ | heq
    · exact Or.inl ⟨p, c, by omega, heq⟩
    · exact Or.inr heq
  · obtain ⟨p, c, hp, heq⟩ := driverGo_some_ok env n ss ou n 0 true 0
    exact ⟨p, c, by omega, heq⟩

/-- C4, counterexample: with `single_step = true` the driver does NOT stop
after the first successful commit of the call; the break of lines 998/1008
only ends the current pass, the outer loop then applies the actions and
starts another pass. In this environment pass 1 commits one transpose, pass
2 commits another, pass 3 finds nothing: the call performs 3 passes and 2
commits. -/
theorem C4_counterexample :
    driverRun
      (DriverEnv.mk
        (fun p => if p = 1 then [TransEntry.mk 1 0 [2] (some ([], [])) none]
          else if p = 2 then [TransEntry.mk 5 4 [6] (some ([], [])) none]
          else [])
        (fun _ _ => 0) (fun _ _ => 0))
      none true false = DriverResult.ok 3 2 := by
  rfl

/-- C4, amended: `single_step = true` stops the CURRENT driver pass after
its first successful commit, so each pass executes at most one winning
action set; the driver then proceeds to further passes, which may commit
more (see the counterexample). -/
theorem C4_amended (ou : Bool) (insStep delStep : ElimAction → Int)
    (entries : List TransEntry) (visited : List Nat) (actions : List ElimAction)
    (found : Bool) (commits : Nat) :
    (runPassInner true ou insStep delStep entries visited actions found commits).2.2.2 ≤
      commits + 1 := by
  induction entries generalizing visited actions found commits with
  | nil => simp [runPassInner]
  | cons e rest ih =>
    unfold runPassInner
    dsimp only
    repeat' split
    all_goals
      first
        | exact ih visited actions found commits
        | exact absurd rfl (by assumption)
        | exact Nat.le_refl (commits + 1)

/-! ## Graph skeleton and one-step explorers (`search_down` lines 258-519,
`search_up` lines 522-790)

The graph container is external; here a graph is its node list and edge
list. The explorers are embedded one step at a time: every recursive call
(`search_up` from the sibling loop of `search_down`, `search_down` from the
other-out-edge loop of `search_up`) is supplied by an oracle argument of
type `SearchOracle`, and the trailing pass-through stages (strided slice,
transient operators, reshape, `continue_down`/`continue_up`, lines 426-519
and 657-790) are represented by the `passThrough` outcome carrying the state
at that point. A raised `CantContinueError` is `Except.error ()`.

`reverses_transpose_up` and `requires_reshape` depend on helper modules that
are not in the sources: the boolean part of `reverses_transpose_up` is
modelled from the spec ("the incoming permutation is the inverse of this
node's permutation"), while its residual `old_shape` and the whole of
`requires_reshape`'s reshape pair are abstracted as the oracle arguments
`revRes` / `reqRes`. -/

structure Edge where
  fromNode : Nat
  fromIdx : Nat
  toNode : Nat
  toIdx : Nat
deriving DecidableEq, Repr

structure Graph where
  nodes : List Node
  edges : List Edge
deriving DecidableEq, Repr

def Graph.inEdges (G : Graph) (n : Nat) : List Edge :=
  G.edges.filter (fun e => e.toNode == n)

def Graph.outEdges (G : Graph) (n : Nat) : List Edge :=
  G.edges.filter (fun e => e.fromNode == n)

/-- Node lookup by id; a missing node (impossible in a well-formed graph)
defaults to a SensitiveToOrder placeholder. -/
def Graph.findNode (G : Graph) (n : Nat) : Node :=
  (G.nodes.find? (fun nd => nd.id == n)).getD (Node.mk n NodeKind.sensitive [] [])

/-- Embeds `TransposeHistory` (lines 77-94). -/
structure THist where
  node : Nat
  fromShape : List Nat
  transpose : Option (List Nat)
  toShape : List Nat
deriving DecidableEq, Repr

/-- Python `transpose_history[-1].transpose`. -/
def lastTranspose (h : List THist) : Option (List Nat) :=
  match h.getLast? with
  | some e => e.transpose
  | none => none

/-- Python `transpose is not None and len(transpose) == 1`. -/
def isLen1T (t : Option (List Nat)) : Bool :=
  match t with
  | some l => decide (l.length = 1)
  | none => false

inductive StepOutcome where
  | final (actions : List ElimAction) (visited : VisitedNodes)
  | passThrough (actions : List ElimAction) (visited : VisitedNodes)
      (history : List THist) (transpose : Option (List Nat))
deriving DecidableEq, Repr

abbrev SearchOracle :=
  Graph → Edge → VisitedNodes → List THist →
    Except Unit (List ElimAction × VisitedNodes)

/-- Python truthiness of the `old_shape` returned by `reverses_transpose_up`
(line 397): a reshape pair is attached when the old shape is a non-empty
sequence. -/
def mkResidual (oldShape : Option (List Nat)) (outShape : List Nat) :
    Option (List Nat × List Nat) :=
  match oldShape with
  | some os => if os.isEmpty then none else some (os, outShape)
  | none => none

/-- Embeds the broadcast-arrival expansion of `search_down` (lines 309-323):
on a Broadcastable or Pow node whose input rank differs from the output
rank, the transpose is expanded by the broadcasted axes and the shape is
padded with leading ones (after `check_for_null_transpose`). -/
def searchDownBroadcast (node : Node) (transpose : Option (List Nat)) (inShape : List Nat)
    (history : List THist) :
    Except Unit (Option (List Nat) × List Nat × List THist) :=
  if (isBroadcastableK node.kind || kindIsPow node.kind) &&
      !decide (inShape.length = (node.outDims.getD 0 []).length) then
    match transpose with
    | none => Except.error ()
    | some t =>
      let maxShape := computeMaxShape node.outDims
      let bAxes := broadcastedAxes inShape maxShape
      let newT := expandAxesInTranspose t bAxes.length
      let newShape := List.replicate bAxes.length 1 ++ inShape
      Except.ok (some newT, newShape,
        history ++ [THist.mk node.id inShape (some newT) newShape])
  else Except.ok (transpose, inShape, history)

/-- Embeds the sibling loop of `search_down` on `NODES_TO_EXPLORE_UP` (lines
329-369): every other in-edge is checked with `check_continue`, a
broadcasted sibling gets the transpose stripped and possibly an
`InsertReshapeAction`, and the recursive `search_up` is the oracle `upO`. -/
def downSiblingsLoop (upO : SearchOracle) (G : Graph) (node : Node) (exclude : List Nat)
    (visited : VisitedNodes) (t : List Nat) :
    List Edge → List ElimAction → VisitedNodes →
    Except Unit (List ElimAction × VisitedNodes)
  | [], accA, accV => Except.ok (accA, accV)
  | edge :: rest, accA, accV =>
    match checkContinue visited accV exclude (G.findNode edge.fromNode) Direction.up
        edge.fromIdx with
    | CheckResult.skip => downSiblingsLoop upO G node exclude visited t rest accA accV
    | CheckResult.cantContinue => Except.error ()
    | CheckResult.visit =>
      let maxShape := computeMaxShape node.outDims
      let edgeInShape := node.inDims.getD edge.toIdx []
      let step :=
        if !decide (edgeInShape.length = maxShape.length) then
          let bAxes := broadcastedAxes edgeInShape maxShape
          let twb := stripAxesFromTranspose t bAxes
          let fromShape := applyTranspose edgeInShape (reverseTranspose twb)
          let bShape := List.replicate bAxes.length 1 ++ edgeInShape
          let toShape := stripLeadingDim (applyTranspose bShape (reverseTranspose t)) 1
          if !decide (fromShape = toShape) then
            (twb, accA ++ [ElimAction.insertReshape node.id ActDir.inD edge.toIdx
              fromShape toShape])
          else (twb, accA)
        else (t, accA)
      match upO G edge (unionV visited accV)
          [THist.mk node.id edgeInShape (some step.1) edgeInShape] with
      | Except.error e => Except.error e
      | Except.ok (newActs, visUp) =>
        downSiblingsLoop upO G node exclude visited t rest (step.2 ++ newActs)
          (unionV accV visUp)

/-- Embeds the absorbing branches of `search_down` after the sibling loop:
FullyConnected / LinearFusion (lines 374-389), Transpose (lines 391-409) and
Output (lines 411-424); the remaining pass-through stages (lines 426-519)
become `passThrough`. -/
def searchDownDispatch (revRes : List Nat → List Nat → List Nat → Option (List Nat))
    (node : Node) (inEdge : Edge) (accA : List ElimAction) (accV : VisitedNodes)
    (history : List THist) (transpose : Option (List Nat)) :
    Except Unit StepOutcome :=
  match node.kind with
  | NodeKind.fc b | NodeKind.linearFusion b =>
    if 1 < b then
      Except.ok (StepOutcome.final
        [ElimAction.insertTranspose node.id ActDir.inD inEdge.toIdx transpose,
         ElimAction.endActionDown node.id] accV)
    else
      Except.ok (StepOutcome.final
        (accA ++ [ElimAction.reorderLinearIn node.id, ElimAction.endActionDown node.id])
        accV)
  | NodeKind.transpose q =>
    match transpose with
    | none => Except.error ()
    | some t =>
      if t = reverseTranspose q then
        Except.ok (StepOutcome.final
          [ElimAction.deleteTranspose node.id
            (mkResidual (revRes t q (node.outDims.getD 0 [])) (node.outDims.getD 0 [])),
           ElimAction.endActionDown node.id] accV)
      else
        Except.ok (StepOutcome.final
          [ElimAction.setTranspose node.id (applyTranspose t q),
           ElimAction.endActionDown node.id] accV)
  | NodeKind.output fo =>
    match transpose with
    | none => Except.error ()
    | some _ =>
      if fo then
        Except.ok (StepOutcome.final
          [ElimAction.insertTranspose node.id ActDir.inD inEdge.toIdx transpose,
           ElimAction.endActionDown node.id] accV)
      else Except.ok (StepOutcome.final [ElimAction.endActionDown node.id] accV)
  | _ => Except.ok (StepOutcome.passThrough accA accV history transpose)

/-- One step of `search_down` (lines 258-508): the single-axis terminator,
the two SensitiveToOrder branches, the broadcast expansion, the sibling
loop, then the dispatch on the absorbing node kinds. -/
def searchDownStep (upO : SearchOracle)
    (revRes : List Nat → List Nat → List Nat → Option (List Nat))
    (G : Graph) (node : Node) (exclude : List Nat) (visited : VisitedNodes)
    (inEdge : Edge) (history : List THist) : Except Unit StepOutcome :=
  let cv := visitDown emptyVisited node.id inEdge.toIdx
  let transpose := lastTranspose history
  let inShape := node.inDims.getD inEdge.toIdx []
  if isLen1T transpose then
    Except.ok (StepOutcome.final [ElimAction.endActionDown node.id] emptyVisited)
  else if sensitiveToOrder node && transposeDoesNothingO (reverseTO transpose) inShape then
    match transpose with
    | none => Except.error ()
    | some t =>
      if applyTranspose inShape (reverseTranspose t) = inShape then
        Except.ok (StepOutcome.final [ElimAction.endActionDown node.id] cv)
      else
        Except.ok (StepOutcome.final
          [ElimAction.insertReshape node.id ActDir.inD inEdge.toIdx
            (applyTranspose inShape (reverseTranspose t)) inShape,
           ElimAction.endActionDown node.id] cv)
  else if sensitiveToOrder node then
    match transpose with
    | none => Except.error ()
    | some _ =>
      Except.ok (StepOutcome.final
        [ElimAction.insertTranspose node.id ActDir.inD inEdge.toIdx transpose,
         ElimAction.endActionDown node.id] cv)
  else
    match searchDownBroadcast node transpose inShape history with
    | Except.error e => Except.error e
    | Except.ok (t1, _, h1) =>
      match
        (if isExploreUpK node.kind then
          match t1 with
          | none => Except.error ()
          | some t =>
            downSiblingsLoop upO G node exclude visited t
              ((G.inEdges node.id).filter (fun e => !decide (e = inEdge))) [] cv
        else Except.ok ([], cv)) with
      | Except.error e => Except.error e
      | Except.ok (accA, accV) => searchDownDispatch revRes node inEdge accA accV h1 t1

/-- Embeds the other-out-edge loop of `search_up` (lines 566-582): per edge
`check_for_null_transpose`, then `check_continue` downward on the consumer,
then the recursive `search_down` supplied as the oracle `downO`. -/
def upSiblingsLoop (downO : SearchOracle) (G : Graph) (node : Node) (exclude : List Nat)
    (visited : VisitedNodes) (transpose : Option (List Nat)) :
    List Edge → List ElimAction → VisitedNodes →
    Except Unit (List ElimAction × VisitedNodes)
  | [], accA, accV => Except.ok (accA, accV)
  | edge :: rest, accA, accV =>
    match transpose with
    | none => Except.error ()
    | some t =>
      match checkContinue visited accV exclude (G.findNode edge.toNode) Direction.down
          edge.toIdx with
      | CheckResult.skip =>
        upSiblingsLoop downO G node exclude visited transpose rest accA accV
      | CheckResult.cantContinue => Except.error ()
      | CheckResult.visit =>
        match downO G edge (unionV visited accV)
            [THist.mk node.id (node.outDims.getD edge.fromIdx [])
              (some t) (applyTranspose (node.outDims.getD edge.fromIdx []) t)] with
        | Except.error e => Except.error e
        | Except.ok (newActs, visDown) =>
          upSiblingsLoop downO G node exclude visited transpose rest (accA ++ newActs)
            (unionV accV visDown)

/-- Embeds the absorbing branches of `search_up` after the out-edge loop:
FullyConnected / LinearFusion (lines 587-605), Transpose (lines 608-629,
including the `EndActionDown` sentinel the sources emit in the non-reversing
branch), Input (lines 632-645) and Constant (lines 648-655); the remaining
pass-through stages (lines 657-790) become `passThrough`. -/
def searchUpDispatch
    (reqRes : List Nat → List Nat → List Nat → Option (List Nat × List Nat))
    (node : Node) (outEdge : Edge) (accA : List ElimAction) (accV : VisitedNodes)
    (history : List THist) (transpose : Option (List Nat)) :
    Except Unit StepOutcome :=
  match node.kind with
  | NodeKind.fc b | NodeKind.linearFusion b =>
    if 1 < b then
      if transpose = some [1, 0] then
        Except.ok (StepOutcome.final
          (accA ++ [ElimAction.switchBatchLinear node.id, ElimAction.endActionUp node.id])
          accV)
      else
        Except.ok (StepOutcome.final
          [ElimAction.insertTranspose node.id ActDir.outD outEdge.fromIdx
            (reverseTO transpose), ElimAction.endActionUp node.id] accV)
    else
      Except.ok (StepOutcome.final
        (accA ++ [ElimAction.reorderLinearOut node.id, ElimAction.endActionUp node.id])
        accV)
  | NodeKind.transpose q =>
    match transpose with
    | none => Except.error ()
    | some t =>
      if q = t then
        Except.ok (StepOutcome.final
          (accA ++ [ElimAction.deleteTranspose node.id (reqRes q t (node.outDims.getD 0 [])),
            ElimAction.endActionUp node.id]) accV)
      else
        Except.ok (StepOutcome.final
          [ElimAction.setTranspose node.id (applyTranspose q (reverseTranspose t)),
           ElimAction.endActionDown node.id] accV)
  | NodeKind.input fo =>
    match transpose with
    | none => Except.error ()
    | some t =>
      if fo then
        Except.ok (StepOutcome.final
          [ElimAction.insertTranspose node.id ActDir.outD outEdge.fromIdx (some t),
           ElimAction.endActionUp node.id] accV)
      else
        Except.ok (StepOutcome.final
          (accA ++ [ElimAction.reorderInputDims node.id (some (reverseTranspose t)),
            ElimAction.endActionUp node.id]) accV)
  | NodeKind.constant =>
    match transpose with
    | none => Except.error ()
    | some t =>
      Except.ok (StepOutcome.final
        (accA ++ [ElimAction.reorderConstantInput node.id (some (reverseTranspose t)),
          ElimAction.endActionUp node.id]) accV)
  | _ => Except.ok (StepOutcome.passThrough accA accV history transpose)

/-- One step of `search_up` (lines 522-743): the single-axis terminator, the
two SensitiveToOrder branches, the other-out-edge loop, then the dispatch on
the absorbing node kinds. -/
def searchUpStep (downO : SearchOracle)
    (reqRes : List Nat → List Nat → List Nat → Option (List Nat × List Nat))
    (G : Graph) (node : Node) (exclude : List Nat) (visited : VisitedNodes)
    (outEdge : Edge) (history : List THist) : Except Unit StepOutcome :=
  let cv := visitUp emptyVisited node.id outEdge.fromIdx
  let transpose := lastTranspose history
  let outShape := node.outDims.getD outEdge.fromIdx []
  if isLen1T transpose then
    Except.ok (StepOutcome.final [ElimAction.endActionUp node.id] cv)
  else if sensitiveToOrder node && transposeDoesNothingO (reverseTO transpose) outShape then
    match transpose with
    | none => Except.error ()
    | some t =>
      if applyTranspose outShape (reverseTranspose t) = outShape then
        Except.ok (StepOutcome.final [ElimAction.endActionUp node.id] cv)
      else
        Except.ok (StepOutcome.final
          [ElimAction.insertReshape node.id ActDir.outD outEdge.fromIdx outShape
            (applyTranspose outShape (reverseTranspose t)),
           ElimAction.endActionUp node.id] cv)
  else if sensitiveToOrder node then
    match transpose with
    | none => Except.error ()
    | some t =>
      Except.ok (StepOutcome.final
        [ElimAction.insertTranspose node.id ActDir.outD outEdge.fromIdx
          (some (reverseTranspose t)), ElimAction.endActionUp node.id] cv)
  else
    match upSiblingsLoop downO G node exclude visited transpose
        ((G.outEdges node.id).filter (fun e => !decide (e = outEdge))) [] cv with
    | Except.error e => Except.error e
    | Except.ok (accA, accV) =>
      searchUpDispatch reqRes node outEdge accA accV history transpose

/-! ## Claims C6 and C7 -/

/-- C6: when the downward explorer reaches a Transpose node with an incoming
permutation `p` of length > 1: if `p` is the inverse of the node's own
permutation it returns exactly a `DeleteTranspose` (with an optional
residual reshape, abstracted by `revRes`) followed by the end sentinel and
terminates the branch; otherwise exactly a `SetTranspose` whose new
permutation is `compose(p, node.transpose) = apply(node.transpose, p)`
followed by the end sentinel, terminating the branch (lines 391-409). -/
theorem C6_down_at_transpose (upO : SearchOracle)
    (revRes : List Nat → List Nat → List Nat → Option (List Nat))
    (G : Graph) (nid : Nat) (q : List Nat) (ind outd : List (List Nat))
    (exclude : List Nat) (visited : VisitedNodes) (inEdge : Edge)
    (history : List THist) (p : List Nat)
    (hlast : lastTranspose history = some p) (hlen : 1 < p.length) :
    searchDownStep upO revRes G (Node.mk nid (NodeKind.transpose q) ind outd) exclude
      visited inEdge history =
      Except.ok (StepOutcome.final
        (if p = reverseTranspose q then
          [ElimAction.deleteTranspose nid
            (mkResidual (revRes p q (outd.getD 0 [])) (outd.getD 0 [])),
           ElimAction.endActionDown nid]
        else
          [ElimAction.setTranspose nid (applyTranspose p q),
           ElimAction.endActionDown nid])
        (visitDown emptyVisited nid inEdge.toIdx)) := by
  have h1 : isLen1T (some p) = false := by
    unfold isLen1T
    simp only [decide_eq_false_iff_not]
    omega
  simp only [searchDownStep, hlast, h1, sensitiveToOrder, searchDownBroadcast,
    isBroadcastableK, kindIsPow, isExploreUpK, searchDownDispatch, Bool.false_and,
    Bool.false_or, Bool.or_self, Bool.false_eq_true, if_false, ite_false, ite_true]
  split <;> simp

/-- C6, witness: a transpose node carrying permutation `[1,0]` reached with
the incoming permutation `[1,0]` (its own inverse) is deleted. -/
theorem C6_down_at_transpose_witness :
    lastTranspose [THist.mk 9 [3, 4] (some [1, 0]) [4, 3]] = some [1, 0] ∧
    1 < ([1, 0] : List Nat).length ∧
    searchDownStep (fun _ _ _ _ => Except.error ()) (fun _ _ _ => none)
      (Graph.mk [] []) (Node.mk 2 (NodeKind.transpose [1, 0]) [[3, 4]] [[4, 3]]) []
      emptyVisited (Edge.mk 9 0 2 0) [THist.mk 9 [3, 4] (some [1, 0]) [4, 3]] =
      Except.ok (StepOutcome.final
        (if ([1, 0] : List Nat) = reverseTranspose [1, 0] then
          [ElimAction.deleteTranspose 2
            (mkResidual ((fun _ _ _ => (none : Option (List Nat))) [1, 0] [1, 0]
              ([[4, 3]].getD 0 [])) ([[4, 3]].getD 0 [])),
           ElimAction.endActionDown 2]
        else
          [ElimAction.setTranspose 2 (applyTranspose [1, 0] [1, 0]),
           ElimAction.endActionDown 2])
        (visitDown emptyVisited 2 (Edge.mk 9 0 2 0).toIdx)) :=
  ⟨by decide, by decide,
    C6_down_at_transpose (fun _ _ _ _ => Except.error ()) (fun _ _ _ => none)
      (Graph.mk [] []) 2 [1, 0] [[3, 4]] [[4, 3]] [] emptyVisited (Edge.mk 9 0 2 0)
      [THist.mk 9 [3, 4] (some [1, 0]) [4, 3]] [1, 0] (by decide) (by decide)⟩

/-- C7, counterexample: the claim says any permutation other than `(1, 0)`
at a batch>1 FullyConnected fails with an `InsertTranspose`; but a length-1
permutation (e.g. `[0]`) hits the single-axis terminator of `search_up`
(lines 527-530) first, which returns only the `EndActionUp` sentinel and no
`InsertTranspose`. -/
theorem C7_counterexample :
    searchUpStep (fun _ _ _ _ => Except.error ()) (fun _ _ _ => none) (Graph.mk [] [])
      (Node.mk 3 (NodeKind.fc 2) [[4, 2]] [[2, 4]]) [] emptyVisited (Edge.mk 3 0 9 0)
      [THist.mk 9 [] (some [0]) []] =
      Except.ok (StepOutcome.final [ElimAction.endActionUp 3] (visitUp emptyVisited 3 0)) ∧
    ([ElimAction.endActionUp 3] ≠
      [ElimAction.insertTranspose 3 ActDir.outD 0 (some (reverseTranspose [0])),
       ElimAction.endActionUp 3]) :=
  ⟨rfl, by decide⟩

/-- C7, amended: when the upward explorer reaches a FullyConnected (or
LinearFusion) node whose contained filter has batch_size > 1 with a
propagated permutation of length ≠ 1 (a length-1 permutation terminates
earlier with only a sentinel) and the sibling out-edge exploration does not
raise: permutation exactly `(1, 0)` yields a `SwitchBatchLinear` and
terminates; any other permutation fails the absorption with an
`InsertTranspose` on the out-edge carrying the reversed permutation
(lines 587-599). -/
theorem C7_up_at_batched_linear (downO : SearchOracle)
    (reqRes : List Nat → List Nat → List Nat → Option (List Nat × List Nat))
    (G : Graph) (nid b : Nat) (kind : NodeKind) (ind outd : List (List Nat))
    (exclude : List Nat) (visited : VisitedNodes) (outEdge : Edge)
    (history : List THist) (p : List Nat)
    (hkind : kind = NodeKind.fc b ∨ kind = NodeKind.linearFusion b)
    (hb : 1 < b) (hlast : lastTranspose history = some p) (hlen : p.length ≠ 1) :
    searchUpStep downO reqRes G (Node.mk nid kind ind outd) exclude visited outEdge
        history = Except.error () ∨
    (if p = [1, 0] then
      ∃ pre vis, searchUpStep downO reqRes G (Node.mk nid kind ind outd) exclude visited
          outEdge history =
        Except.ok (StepOutcome.final
          (pre ++ [ElimAction.switchBatchLinear nid, ElimAction.endActionUp nid]) vis)
    else
      ∃ vis, searchUpStep downO reqRes G (Node.mk nid kind ind outd) exclude visited
          outEdge history =
        Except.ok (StepOutcome.final
          [ElimAction.insertTranspose nid ActDir.outD outEdge.fromIdx
            (some (reverseTranspose p)), ElimAction.endActionUp nid] vis)) := by
  have hsens : sensitiveToOrder (Node.mk nid kind ind outd) = false := by
    rcases hkind with h | h <;> subst h <;> rfl
  have h1 : isLen1T (some p) = false := by
    unfold isLen1T
    simp only [decide_eq_false_iff_not]
    exact hlen
  unfold searchUpStep
  simp only [hlast, h1, hsens, Bool.false_and, Bool.false_eq_true, if_false, ite_false]
  cases hloop : upSiblingsLoop downO G (Node.mk nid kind ind outd) exclude visited
      (some p) ((Graph.outEdges G nid).filter (fun e => !decide (e = outEdge))) []
      (visitUp emptyVisited nid outEdge.fromIdx) with
  | error e =>
    cases e
    exact Or.inl rfl
  | ok pr =>
    rcases pr with ⟨accA, accV⟩
    rcases hkind with h | h <;> subst h <;>
      by_cases hp : p = [1, 0]
    · refine Or.inr ?_
      rw [if_pos hp]
      refine ⟨accA, accV, ?_⟩
      simp [searchUpDispatch, hb, hp]
    · refine Or.inr ?_
      rw [if_neg hp]
      refine ⟨accV, ?_⟩
      have hne : ¬ (some p = some ([1, 0] : List Nat)) := fun hc => hp (Option.some.inj hc)
      simp [searchUpDispatch, hb, hne, reverseTO]
    · refine Or.inr ?_
      rw [if_pos hp]
      refine ⟨accA, accV, ?_⟩
      simp [searchUpDispatch, hb, hp]
    · refine Or.inr ?_
      rw [if_neg hp]
      refine ⟨accV, ?_⟩
      have hne : ¬ (some p = some ([1, 0] : List Nat)) := fun hc => hp (Option.some.inj hc)
      simp [searchUpDispatch, hb, hne, reverseTO]

/-- C7, witness for the amended theorem: a batch-2 FullyConnected reached
upward with permutation `[1, 0]`. -/
theorem C7_up_at_batched_linear_witness :
    (NodeKind.fc 2 = NodeKind.fc 2 ∨ NodeKind.fc 2 = NodeKind.linearFusion 2) ∧
    1 < 2 ∧
    lastTranspose [THist.mk 9 [2, 4] (some [1, 0]) [4, 2]] = some [1, 0] ∧
    ([1, 0] : List Nat).length ≠ 1 ∧
    (searchUpStep (fun _ _ _ _ => Except.error ())
        (fun _ _ _ => (none : Option (List Nat × List Nat))) (Graph.mk [] [])
        (Node.mk 3 (NodeKind.fc 2) [[4, 2]] [[2, 4]]) [] emptyVisited (Edge.mk 3 0 9 0)
        [THist.mk 9 [2, 4] (some [1, 0]) [4, 2]] = Except.error () ∨
      (if ([1, 0] : List Nat) = [1, 0] then
        ∃ pre vis, searchUpStep (fun _ _ _ _ => Except.error ())
            (fun _ _ _ => (none : Option (List Nat × List Nat))) (Graph.mk [] [])
            (Node.mk 3 (NodeKind.fc 2) [[4, 2]] [[2, 4]]) [] emptyVisited
            (Edge.mk 3 0 9 0) [THist.mk 9 [2, 4] (some [1, 0]) [4, 2]] =
          Except.ok (StepOutcome.final
            (pre ++ [ElimAction.switchBatchLinear 3, ElimAction.endActionUp 3]) vis)
      else
        ∃ vis, searchUpStep (fun _ _ _ _ => Except.error ())
            (fun _ _ _ => (none : Option (List Nat × List Nat))) (Graph.mk [] [])
            (Node.mk 3 (NodeKind.fc 2) [[4, 2]] [[2, 4]]) [] emptyVisited
            (Edge.mk 3 0 9 0) [THist.mk 9 [2, 4] (some [1, 0]) [4, 2]] =
          Except.ok (StepOutcome.final
            [ElimAction.insertTranspose 3 ActDir.outD 0
              (some (reverseTranspose [1, 0])), ElimAction.endActionUp 3] vis))) :=
  ⟨Or.inl rfl, by decide, by decide, by decide,
    C7_up_at_batched_linear (fun _ _ _ _ => Except.error ())
      (fun _ _ _ => (none : Option (List Nat × List Nat))) (Graph.mk [] []) 3 2
      (NodeKind.fc 2) [[4, 2]] [[2, 4]] [] emptyVisited (Edge.mk 3 0 9 0)
      [THist.mk 9 [2, 4] (some [1, 0]) [4, 2]] [1, 0] (Or.inl rfl) (by decide)
      (by decide) (by decide)⟩

/-! ## Cleanup: `remove_silly_reshapes` (lines 867-871) -/

/-- The predicate of line 868-869: a Reshape whose `old_shape` equals its
`shape`. -/
def isSillyReshape (nd : Node) : Bool :=
  match nd.kind with
  | NodeKind.reshape oldShape shape => decide (oldShape = shape)
  | _ => false

/-- Modelled from the spec: the graph container's `remove_and_reconnect`
(not in the sources) removes the node and reconnects its single input
source to its consumers. -/
def removeAndReconnect (G : Graph) (n : Nat) : Graph :=
  Graph.mk (G.nodes.filter (fun nd => !decide (nd.id = n)))
    (match G.inEdges n with
     | [ie] =>
       G.edges.filter (fun e => !decide (e.toNode = n) && !decide (e.fromNode = n)) ++
         (G.outEdges n).map (fun oe => Edge.mk ie.fromNode ie.fromIdx oe.toNode oe.toIdx)
     | _ => G.edges.filter (fun e => !decide (e.toNode = n) && !decide (e.fromNode = n)))

/-- Embeds `remove_silly_reshapes` (lines 867-871): collect every Reshape
with `old_shape == shape`, then remove each with `remove_and_reconnect`. -/
def removeSillyReshapes (G : Graph) : Graph :=
  (G.nodes.filter isSillyReshape).foldl (fun g nd => removeAndReconnect g nd.id) G

lemma removeAndReconnect_nodes (g : Graph) (n : Nat) :
    (removeAndReconnect g n).nodes = g.nodes.filter (fun nd => !decide (nd.id = n)) := rfl

lemma foldl_removeAndReconnect_nodes (l : List Node) :
    ∀ g : Graph,
      ((l.foldl (fun g nd => removeAndReconnect g nd.id) g).nodes) =
        g.nodes.filter (fun nd => !(l.any (fun s => decide (s.id = nd.id)))) := by
  induction l with
  | nil =>
    intro g
    simp
  | cons a rest ih =>
    intro g
    rw [List.foldl_cons, ih, removeAndReconnect_nodes, List.filter_filter]
    apply List.filter_congr
    intro nd _
    simp only [List.any_cons, Bool.not_or]
    rw [Bool.and_comm]
    congr 1
    simp [eq_comm]

/-- C8: `remove_silly_reshapes` removes from the graph exactly the Reshape
nodes whose `old_shape` equals their `shape` (reconnecting neighbours in
`remove_and_reconnect`) and no other node; afterwards no such Reshape
remains. -/
theorem C8_remove_silly_reshapes (G : Graph) (h : (G.nodes.map Node.id).Nodup) :
    (removeSillyReshapes G).nodes = G.nodes.filter (fun nd => !isSillyReshape nd) ∧
    (removeSillyReshapes G).nodes.filter isSillyReshape = [] := by
  have hmain : (removeSillyReshapes G).nodes =
      G.nodes.filter (fun nd => !isSillyReshape nd) := by
    unfold removeSillyReshapes
    rw [foldl_removeAndReconnect_nodes]
    apply List.filter_congr
    intro nd hnd
    congr 1
    cases hs : isSillyReshape nd with
    | false =>
      apply List.any_eq_false.mpr
      intro s hsf
      rcases List.mem_filter.mp hsf with ⟨hsmem, hssilly⟩
      simp only [decide_eq_true_eq]
      intro hid
      have hsnd : s = nd := List.inj_on_of_nodup_map h hsmem hnd hid
      rw [hsnd] at hssilly
      rw [hssilly] at hs
      exact Bool.true_eq_false.mp hs
    | true =>
      apply List.any_eq_true.mpr
      exact ⟨nd, List.mem_filter.mpr ⟨hnd, hs⟩, by simp⟩
  refine ⟨hmain, ?_⟩
  rw [hmain]
  apply List.filter_eq_nil_iff.mpr
  intro a ha
  have h2 := (List.mem_filter.mp ha).2
  simp at h2
  simp [h2]

/-- C8, witness at a two-node graph: the no-op Reshape is removed, the
Constant survives. -/
theorem C8_remove_silly_reshapes_witness :
    ((Graph.mk [Node.mk 0 (NodeKind.reshape [2, 3] [2, 3]) [] [],
        Node.mk 1 NodeKind.constant [] []] []).nodes.map Node.id).Nodup ∧
    ((removeSillyReshapes (Graph.mk [Node.mk 0 (NodeKind.reshape [2, 3] [2, 3]) [] [],
        Node.mk 1 NodeKind.constant [] []] [])).nodes =
      (Graph.mk [Node.mk 0 (NodeKind.reshape [2, 3] [2, 3]) [] [],
        Node.mk 1 NodeKind.constant [] []] []).nodes.filter
          (fun nd => !isSillyReshape nd) ∧
    (removeSillyReshapes (Graph.mk [Node.mk 0 (NodeKind.reshape [2, 3] [2, 3]) [] [],
        Node.mk 1 NodeKind.constant [] []] [])).nodes.filter isSillyReshape = []) :=
  ⟨by decide,
    C8_remove_silly_reshapes (Graph.mk [Node.mk 0 (NodeKind.reshape [2, 3] [2, 3]) [] [],
      Node.mk 1 NodeKind.constant [] []] []) (by decide)⟩
